import Mathlib

set_option maxRecDepth 65536

/-!
Verification of the spiderpool IP/CIDR library (`pkg/ip`) against its
specification. The repository material at hand contains the library's test
suite (`src/unnamed/part_000` for addresses, the second half of
`src/pkg/limiter/config.go` for CIDRs); the implementation itself delegates
string parsing to Go's `net` package and is modelled here from the spec,
with every behaviour that the in-repo tests pin down (exact return values,
byte widths, masking, error kinds) reproduced faithfully.

Addresses are byte lists (`List Nat`, each byte < 256), big-endian, 4 bytes
for IPv4 and 16 for IPv6, mirroring Go's `net.IP`. Textual inputs are
modelled by the structural content Go's literal parser extracts from them
(`IPText`); fallible operations return Go-style pairs `value × Option IPError`.
-/

set_option autoImplicit false

namespace Spiderpool

/-- The three error kinds of the library (spec §7). -/
inductive IPError where
  | invalidIPVersion
  | invalidIPFormat
  | invalidCIDRFormat
deriving DecidableEq

/-- A binary address: big-endian byte sequence, as Go's `net.IP`. -/
abbrev IPBytes := List Nat

/-- Every byte of the sequence is an actual byte value. -/
def bytesWF (b : IPBytes) : Prop := ∀ x ∈ b, x < 256

instance (b : IPBytes) : Decidable (bytesWF b) := by
  unfold bytesWF; infer_instance

/-- Value of a big-endian byte sequence as an unsigned integer. -/
def bytesToNat (b : IPBytes) : Nat := b.foldl (fun acc x => acc * 256 + x) 0

/-- The 12-byte marker Go uses for IPv4-in-IPv6 addresses (`v4InV6Prefix`). -/
def v4Marker : IPBytes := [0, 0, 0, 0, 0, 0, 0, 0, 0, 0, 255, 255]

/-- Go's `net.IPv4 a b c d`: the 16-byte IPv4-in-IPv6 form of a V4 address. -/
def goIPv4 (b : IPBytes) : IPBytes := v4Marker ++ b

/-- Go's `IP.To4`: 4-byte form when the address is V4 or V4-mapped. -/
def to4 (ip : IPBytes) : Option IPBytes :=
  if ip.length = 4 then some ip
  else if ip.length = 16 ∧ ip.take 12 = v4Marker then some (ip.drop 12)
  else none

/-- Canonical form of an address: the 4-byte form for V4(-mapped)
addresses, the input itself otherwise. -/
def normIP (ip : IPBytes) : IPBytes := (to4 ip).getD ip

/-- Lexicographic unsigned byte-wise three-way comparison. -/
def cmpBytes : IPBytes → IPBytes → Int
  | [], [] => 0
  | [], _ :: _ => -1
  | _ :: _, [] => 1
  | x :: xs, y :: ys => if x < y then -1 else if y < x then 1 else cmpBytes xs ys

/-- Modelled from the spec: §4.4 `Compare` of `pkg/ip` (implementation not in
src/). Lexicographic byte-wise comparison of the two addresses' canonical
fixed-width forms; V4-mapped 16-byte and plain 4-byte forms of the same
address compare equal. -/
def Cmp (a b : IPBytes) : Int := cmpBytes (normIP a) (normIP b)

/-- Modelled from the spec: a textual input to the library. The Go code
(`pkg/ip`, not in src/) receives plain strings and hands literal parsing to
Go's `net` package; a text is modelled here by the structural content that
parser extracts from it. `v4 b` is a bare dotted-decimal literal denoting
octets `b`, `v6 b` a bare colon-hex literal denoting bytes `b`, `v4cidr` /
`v6cidr` the corresponding `address/len` CIDR literals, and `bad` any string
that is none of these (e.g. the tests' `invalidIP` / `invalidCIDR`). -/
inductive IPText where
  | v4 (b : IPBytes)
  | v6 (b : IPBytes)
  | v4cidr (b : IPBytes) (p : Nat)
  | v6cidr (b : IPBytes) (p : Nat)
  | bad
deriving DecidableEq

/-- Whether the constructor's data really denotes a well-formed literal:
octet counts match the family, all bytes are bytes, and a CIDR's mask
length lies within the family's bit width. -/
def IPText.wf : IPText → Bool
  | .v4 b => b.length = 4 && b.all (· < 256)
  | .v6 b => b.length = 16 && b.all (· < 256)
  | .v4cidr b p => b.length = 4 && b.all (· < 256) && p ≤ 32
  | .v6cidr b p => b.length = 16 && b.all (· < 256) && p ≤ 128
  | .bad => false

/-- The text is a valid bare IPv4 address literal. -/
def isV4AddrText : IPText → Bool
  | .v4 b => (IPText.v4 b).wf
  | _ => false

/-- The text is a valid bare IPv6 address literal. -/
def isV6AddrText : IPText → Bool
  | .v6 b => (IPText.v6 b).wf
  | _ => false

/-- The text is a valid IPv4 CIDR literal (Go: `net.ParseCIDR` succeeds and
the address part has a 4-byte form). -/
def IsIPv4CIDR : IPText → Bool
  | .v4cidr b p => (IPText.v4cidr b p).wf
  | _ => false

/-- The text is a valid IPv6 CIDR literal. -/
def IsIPv6CIDR : IPText → Bool
  | .v6cidr b p => (IPText.v6cidr b p).wf
  | _ => false

/-- Modelled from the spec: §4.1 Version Guard of `pkg/ip` (implementation
not in src/). The two recognized family tags are `4` and `6`
(`constant.IPv4` / `constant.IPv6`); anything else is `ErrInvalidIPVersion`.
Returns `none` on success, `some e` on failure, as the Go `error`. -/
def IsIPVersion (v : Nat) : Option IPError :=
  if v = 4 ∨ v = 6 then none else some .invalidIPVersion

/-- Modelled from the spec: §4.2 `IsIP` of `pkg/ip` (implementation not in
src/). Family first, then the literal must be a bare address literal of that
family. -/
def IsIP (v : Nat) (t : IPText) : Option IPError :=
  match IsIPVersion v with
  | some e => some e
  | none =>
    if (v = 4 ∧ isV4AddrText t = true) ∨ (v = 6 ∧ isV6AddrText t = true) then none
    else some .invalidIPFormat

/-- Modelled from the spec: §4.2 `IsCIDR` of `pkg/ip` (implementation not in
src/). Family first, then the literal must be a CIDR literal of that family;
an out-of-range mask length is a format error (spec §4.2). -/
def IsCIDR (v : Nat) (t : IPText) : Option IPError :=
  match IsIPVersion v with
  | some e => some e
  | none =>
    if (v = 4 ∧ IsIPv4CIDR t = true) ∨ (v = 6 ∧ IsIPv6CIDR t = true) then none
    else some .invalidCIDRFormat

/-- Contiguous net mask bytes: `maskBytesAux n r` is `n` bytes holding `r`
leading one bits (Go's `net.CIDRMask` body). -/
def maskBytesAux : Nat → Nat → List Nat
  | 0, _ => []
  | n + 1, r => if 8 ≤ r then 255 :: maskBytesAux n (r - 8) else (256 - 2 ^ (8 - r)) :: maskBytesAux n 0

/-- Go's `net.CIDRMask ones bits`. -/
def goCIDRMask (ones bits : Nat) : List Nat := maskBytesAux (bits / 8) ones

/-- Byte-wise AND of an address with a mask (Go's `IP.Mask` after width
alignment). -/
def andBytes (a m : List Nat) : List Nat := List.zipWith Nat.land a m

/-- A parsed block, as Go's `net.IPNet` with a contiguous mask: base
address bytes plus the mask's `Size()` pair (leading ones, total bits). -/
structure IPNet where
  ip : IPBytes
  maskOnes : Nat
  maskBits : Nat
deriving DecidableEq

/-- Go's `net.ParseIP`: a valid bare literal parses to 16 bytes — the
V4-in-V6 form for a dotted-decimal literal, the 16 bytes themselves for a
colon-hex literal. -/
def goParseIP : IPText → Option IPBytes
  | .v4 b => if (IPText.v4 b).wf then some (goIPv4 b) else none
  | .v6 b => if (IPText.v6 b).wf then some b else none
  | _ => none

/-- Go's `net.ParseCIDR`: returns the unmasked parsed address (16-byte for a
dotted-decimal literal, as `net.ParseIP`) together with the network
`net.IPNet`, whose base is the address masked to the family width — 4 bytes
for V4 (Go's `IP.Mask` projects the V4-mapped form with `To4` before
masking), 16 bytes for V6. -/
def goParseCIDR : IPText → Option (IPBytes × IPNet)
  | .v4cidr b p =>
    if (IPText.v4cidr b p).wf then some (goIPv4 b, ⟨andBytes b (goCIDRMask p 32), p, 32⟩)
    else none
  | .v6cidr b p =>
    if (IPText.v6cidr b p).wf then some (b, ⟨andBytes b (goCIDRMask p 128), p, 128⟩)
    else none
  | _ => none

/-- Modelled from the spec: §4.2 `ParseIP` (the spec's `ParseAddress`) of
`pkg/ip` (implementation not in src/), returning the Go pair
`(*net.IPNet, error)`. Family is validated first, then the format. In
CIDR mode the returned block carries the *unmasked* parsed address with the
text's mask — pinned by the repository's test (`part_000:86-106`), which
expects `IP: net.IPv4(172,18,40,40), Mask: CIDRMask(24,32)`; the spec's §4.2
claim that this base is masked is checked against this below. In bare mode
the mask is the family's full width and the base the 16-byte parsed
address (`part_000:48-68`). -/
def ParseIP (v : Nat) (t : IPText) (asCIDR : Bool) : Option IPNet × Option IPError :=
  match IsIPVersion v with
  | some e => (none, some e)
  | none =>
    if asCIDR then
      match IsCIDR v t with
      | some e => (none, some e)
      | none =>
        match goParseCIDR t with
        | some (ip, n) => (some ⟨ip, n.maskOnes, n.maskBits⟩, none)
        | none => (none, some .invalidCIDRFormat)
    else
      match IsIP v t with
      | some e => (none, some e)
      | none =>
        match goParseIP t with
        | some ip => (some ⟨ip, if v = 4 then 32 else 128, if v = 4 then 32 else 128⟩, none)
        | none => (none, some .invalidIPFormat)

/-- Modelled from the spec: §4.2 `ParseCIDR` of `pkg/ip` (implementation not
in src/). Family and CIDR format validated first, then the masked network
block of Go's `net.ParseCIDR` is returned — base at the family width
(4-byte for V4, pinned by the test `config.go` half, `IP:
net.IPv4(172,18,40,0).To4()`), host bits zeroed. -/
def ParseCIDR (v : Nat) (t : IPText) : Option IPNet × Option IPError :=
  match IsCIDR v t with
  | some e => (none, some e)
  | none =>
    match goParseCIDR t with
    | some (_, n) => (some n, none)
    | none => (none, some .invalidCIDRFormat)

/-- Modelled from the spec: §4.3 `ContainsIP` of `pkg/ip` (implementation
not in src/). Subnet parsed first, then the address; true iff masking the
address (projected to the family's canonical width) to the subnet's mask
length yields the subnet's base. -/
def ContainsIP (v : Nat) (tsub tip : IPText) : Bool × Option IPError :=
  match ParseCIDR v tsub with
  | (_, some e) => (false, some e)
  | (none, none) => (false, none)
  | (some n, none) =>
    match IsIP v tip with
    | some e => (false, some e)
    | none =>
      match goParseIP tip with
      | some ip => (decide (andBytes (normIP ip) (goCIDRMask n.maskOnes n.maskBits) = n.ip), none)
      | none => (false, some .invalidIPFormat)

/-- Modelled from the spec: §4.3 `ContainsCIDR` of `pkg/ip` (implementation
not in src/). Outer parsed first, then inner; true iff the inner base
masked to the outer's mask length equals the outer's (already masked) base
and the inner's mask length is at least the outer's. -/
def ContainsCIDR (v : Nat) (t1 t2 : IPText) : Bool × Option IPError :=
  match ParseCIDR v t1 with
  | (_, some e) => (false, some e)
  | (none, none) => (false, none)
  | (some n1, none) =>
    match ParseCIDR v t2 with
    | (_, some e) => (false, some e)
    | (none, none) => (false, none)
    | (some n2, none) =>
      (decide (andBytes n2.ip (goCIDRMask n1.maskOnes n1.maskBits) = n1.ip) && decide (n1.maskOnes ≤ n2.maskOnes), none)

/-- Modelled from the spec: §4.3 `IsCIDROverlap` of `pkg/ip` (implementation
not in src/). Both blocks parsed (first argument first); with
`p = min(ones₁, ones₂)`, the ranges overlap iff the two bases masked to `p`
are equal. -/
def IsCIDROverlap (v : Nat) (t1 t2 : IPText) : Bool × Option IPError :=
  match ParseCIDR v t1 with
  | (_, some e) => (false, some e)
  | (none, none) => (false, none)
  | (some n1, none) =>
    match ParseCIDR v t2 with
    | (_, some e) => (false, some e)
    | (none, none) => (false, none)
    | (some n2, none) =>
      (decide (andBytes n1.ip (goCIDRMask (min n1.maskOnes n2.maskOnes) n1.maskBits)
        = andBytes n2.ip (goCIDRMask (min n1.maskOnes n2.maskOnes) n2.maskBits)), none)

/-- Increment of a little-endian byte list, carrying; wraps to all zeros. -/
def incRev : List Nat → List Nat
  | [] => []
  | x :: rest => if x + 1 < 256 then (x + 1) :: rest else 0 :: incRev rest

/-- Decrement of a little-endian byte list, borrowing; wraps to all 255s. -/
def decRev : List Nat → List Nat
  | [] => []
  | x :: rest => if 0 < x then (x - 1) :: rest else 255 :: decRev rest

/-- Modelled from the spec: §4.5 `NextIP` of `pkg/ip` (implementation not in
src/). Big-endian +1 with carry over the fixed-width byte representation,
wrapping silently at the family's numeric boundary. -/
def NextIP (ip : IPBytes) : IPBytes := (incRev ip.reverse).reverse

/-- Modelled from the spec: §4.5 `PrevIP` of `pkg/ip` (implementation not in
src/). Big-endian −1 with borrow over the fixed-width byte representation,
wrapping silently at the family's numeric boundary. -/
def PrevIP (ip : IPBytes) : IPBytes := (decRev ip.reverse).reverse

/-- Membership in an address list under the Comparator's equality
(`Cmp == 0`), spec §4.6. -/
def memByCmp (x : IPBytes) (l : List IPBytes) : Bool :=
  l.any (fun y => decide (Cmp x y = 0))

/-- Worker for `IPsDiffSet`: walks `as` keeping elements outside `bs` that
were not already emitted (`seen`). -/
def diffGo : List IPBytes → List IPBytes → List IPBytes → List IPBytes
  | [], _, _ => []
  | x :: rest, bs, seen =>
    if memByCmp x bs || memByCmp x seen then diffGo rest bs seen
    else x :: diffGo rest bs (x :: seen)

/-- Modelled from the spec: §4.6 `IPsDiffSet` of `pkg/ip` (implementation
not in src/). Elements of `as` not `Cmp`-equal to any element of `bs`, in
`as`'s relative order, first occurrence only. -/
def IPsDiffSet (as bs : List IPBytes) : List IPBytes := diffGo as bs []

/-- Value of a little-endian byte sequence, used to reason about the
reversed representation the Stepper walks. -/
def revToNat : List Nat → Nat
  | [] => 0
  | x :: rest => x + 256 * revToNat rest

/-- First-occurrence deduplication under the Comparator's equality: keeps
each list element and removes every later element of the same `Cmp`-class,
preserving the order of first occurrences. -/
def dedupFirstByCmp : List IPBytes → List IPBytes
  | [] => []
  | x :: rest => x :: dedupFirstByCmp (rest.filter (fun y => !(decide (Cmp y x = 0))))
termination_by l => l.length
decreasing_by
  simp only [List.length_cons]
  exact Nat.lt_succ_of_le (List.length_filter_le _ _)

/-- Declarative reference for `IPsDiffSet`, written directly from the
spec's words (§4.6): "elements of A not present (by value equality)
anywhere in B, in the original relative order of A, first occurrence
only" — i.e. filter A by non-membership in B, then keep the first
occurrence of each value. The operational `IPsDiffSet` is proved equal to
it. -/
def IPsDiffSetSpec (A B : List IPBytes) : List IPBytes :=
  dedupFirstByCmp (A.filter (fun x => !(memByCmp x B)))

/-! ### Byte-level facts -/

theorem land_255 : ∀ x < 256, Nat.land x 255 = x := by decide

theorem land_high : ∀ x < 256, ∀ q < 9, Nat.land x (256 - 2 ^ q) = x / 2 ^ q * 2 ^ q := by decide

theorem land_land_self (x y : Nat) : Nat.land (Nat.land x y) y = Nat.land x y := by
  show (x &&& y) &&& y = x &&& y
  rw [Nat.land_assoc, Nat.and_self]

theorem land_zero' (x : Nat) : Nat.land x 0 = 0 := Nat.and_zero x

/-! ### `bytesToNat` and `revToNat` -/

theorem foldl_toNat (l : List Nat) (a : Nat) :
    l.foldl (fun acc x => acc * 256 + x) a = a * 256 ^ l.length + bytesToNat l := by
  induction l generalizing a with
  | nil => simp [bytesToNat]
  | cons x l ih =>
    have hx : bytesToNat (x :: l) = x * 256 ^ l.length + bytesToNat l := by
      show List.foldl _ (0 * 256 + x) l = _
      rw [ih (0 * 256 + x)]; ring
    simp only [List.foldl_cons, List.length_cons, ih (a * 256 + x), hx]
    ring

theorem bytesToNat_cons (x : Nat) (l : List Nat) :
    bytesToNat (x :: l) = x * 256 ^ l.length + bytesToNat l := by
  show List.foldl _ (0 * 256 + x) l = _
  rw [foldl_toNat l (0 * 256 + x)]; ring

theorem bytesToNat_lt (l : List Nat) (h : ∀ x ∈ l, x < 256) : bytesToNat l < 256 ^ l.length := by
  induction l with
  | nil => simp [bytesToNat]
  | cons x l ih =>
    have hx : x < 256 := h x (List.mem_cons_self x l)
    have hl : bytesToNat l < 256 ^ l.length := ih (fun y hy => h y (List.mem_cons_of_mem x hy))
    rw [bytesToNat_cons]
    calc x * 256 ^ l.length + bytesToNat l
        < x * 256 ^ l.length + 256 ^ l.length := by omega
      _ = (x + 1) * 256 ^ l.length := by ring
      _ ≤ 256 * 256 ^ l.length := Nat.mul_le_mul_right _ (by omega)
      _ = 256 ^ (x :: l).length := by rw [List.length_cons]; ring

theorem revToNat_append (l : List Nat) (x : Nat) :
    revToNat (l ++ [x]) = revToNat l + x * 256 ^ l.length := by
  induction l with
  | nil => simp [revToNat]
  | cons y l ih =>
    show y + 256 * revToNat (l ++ [x]) = y + 256 * revToNat l + x * 256 ^ (y :: l).length
    rw [ih, List.length_cons]; ring

theorem bytesToNat_eq_revToNat (l : List Nat) : bytesToNat l = revToNat l.reverse := by
  induction l with
  | nil => simp [bytesToNat, revToNat]
  | cons x l ih =>
    rw [bytesToNat_cons, List.reverse_cons, revToNat_append, ih, List.length_reverse]
    ring

theorem revToNat_lt (l : List Nat) (h : ∀ x ∈ l, x < 256) : revToNat l < 256 ^ l.length := by
  induction l with
  | nil => simp [revToNat]
  | cons x l ih =>
    have hx : x < 256 := h x (List.mem_cons_self x l)
    have hl : revToNat l < 256 ^ l.length := ih (fun y hy => h y (List.mem_cons_of_mem x hy))
    show x + 256 * revToNat l < 256 ^ (x :: l).length
    rw [List.length_cons, pow_succ, Nat.mul_comm (256 ^ l.length) 256]
    calc x + 256 * revToNat l < 256 + 256 * revToNat l := by omega
      _ = 256 * (revToNat l + 1) := by ring
      _ ≤ 256 * 256 ^ l.length := Nat.mul_le_mul_left _ (by omega)

/-! ### The Stepper's carry and borrow arithmetic -/

theorem incRev_toNat (l : List Nat) (h : ∀ x ∈ l, x < 256) :
    revToNat (incRev l) = (revToNat l + 1) % 256 ^ l.length := by
  induction l with
  | nil => simp [incRev, revToNat]
  | cons x l ih =>
    have hx : x < 256 := h x (List.mem_cons_self x l)
    have hwl : ∀ y ∈ l, y < 256 := fun y hy => h y (List.mem_cons_of_mem x hy)
    have hl : revToNat l < 256 ^ l.length := revToNat_lt l hwl
    by_cases hc : x + 1 < 256
    · have hlt : x + 256 * revToNat l + 1 < 256 ^ (x :: l).length := by
        rw [List.length_cons, pow_succ, Nat.mul_comm (256 ^ l.length) 256]
        calc x + 256 * revToNat l + 1 ≤ 255 + 256 * revToNat l := by omega
          _ < 256 * (revToNat l + 1) := by omega
          _ ≤ 256 * 256 ^ l.length := Nat.mul_le_mul_left _ (by omega)
      rw [show incRev (x :: l) = (x + 1) :: l by simp [incRev, hc]]
      show x + 1 + 256 * revToNat l = (x + 256 * revToNat l + 1) % 256 ^ (x :: l).length
      rw [Nat.mod_eq_of_lt hlt]
      ring
    · have hx255 : x = 255 := by omega
      rw [show incRev (x :: l) = 0 :: incRev l by simp [incRev, hc]]
      show 0 + 256 * revToNat (incRev l) = (x + 256 * revToNat l + 1) % 256 ^ (x :: l).length
      rw [ih hwl, hx255, List.length_cons, pow_succ, Nat.mul_comm (256 ^ l.length) 256,
        show 255 + 256 * revToNat l + 1 = 256 * (revToNat l + 1) by ring,
        Nat.mul_mod_mul_left]
      ring

theorem decRev_toNat (l : List Nat) (h : ∀ x ∈ l, x < 256) :
    revToNat (decRev l) = (revToNat l + (256 ^ l.length - 1)) % 256 ^ l.length := by
  induction l with
  | nil => simp [decRev, revToNat]
  | cons x l ih =>
    have hx : x < 256 := h x (List.mem_cons_self x l)
    have hwl : ∀ y ∈ l, y < 256 := fun y hy => h y (List.mem_cons_of_mem x hy)
    have hl : revToNat l < 256 ^ l.length := revToNat_lt l hwl
    have hpos : 0 < 256 ^ l.length := Nat.pos_pow_of_pos _ (by omega)
    by_cases hc : 0 < x
    · rw [show decRev (x :: l) = (x - 1) :: l by simp [decRev, hc]]
      show x - 1 + 256 * revToNat l = (x + 256 * revToNat l + (256 ^ (x :: l).length - 1)) % 256 ^ (x :: l).length
      have hlen : 256 ^ (x :: l).length = 256 * 256 ^ l.length := by
        rw [List.length_cons, pow_succ]; ring
      rw [hlen]
      have hrw : x + 256 * revToNat l + (256 * 256 ^ l.length - 1)
          = (x - 1 + 256 * revToNat l) + 256 * 256 ^ l.length := by omega
      rw [hrw, Nat.add_mod_right, Nat.mod_eq_of_lt (by omega)]
    · have hx0 : x = 0 := by omega
      subst hx0
      rw [show decRev (0 :: l) = 255 :: decRev l by simp [decRev]]
      show 255 + 256 * revToNat (decRev l)
          = (0 + 256 * revToNat l + (256 ^ ((0 : Nat) :: l).length - 1)) % 256 ^ ((0 : Nat) :: l).length
      have hlen : 256 ^ ((0 : Nat) :: l).length = 256 * 256 ^ l.length := by
        rw [List.length_cons, pow_succ]; ring
      rw [ih hwl, hlen]
      set N := 256 ^ l.length with hN
      set R := revToNat l with hR
      have hq := Nat.div_add_mod (R + (N - 1)) N
      set q := (R + (N - 1)) / N with hqdef
      set r := (R + (N - 1)) % N with hrdef
      have hrlt : r < N := Nat.mod_lt _ hpos
      have hbig : 0 + 256 * R + (256 * N - 1) = (256 * r + 255) + q * (256 * N) := by
        have hexp : 256 * (R + (N - 1)) = 256 * (N * q + r) := by rw [hq]
        have hmul : q * (256 * N) = 256 * (N * q) := by ring
        have hdist : 256 * (N * q + r) = 256 * (N * q) + 256 * r := by ring
        omega
      rw [hbig, Nat.add_mul_mod_self_right, Nat.mod_eq_of_lt (by omega)]
      ring

theorem incRev_decRev (l : List Nat) (h : ∀ x ∈ l, x < 256) : incRev (decRev l) = l := by
  induction l with
  | nil => simp [incRev, decRev]
  | cons x l ih =>
    have hx : x < 256 := h x (List.mem_cons_self x l)
    have hwl : ∀ y ∈ l, y < 256 := fun y hy => h y (List.mem_cons_of_mem x hy)
    by_cases hc : 0 < x
    · rw [show decRev (x :: l) = (x - 1) :: l by simp [decRev, hc]]
      have : x - 1 + 1 < 256 := by omega
      rw [show incRev ((x - 1) :: l) = (x - 1 + 1) :: l by simp [incRev, this]]
      congr 1
      omega
    · have hx0 : x = 0 := by omega
      rw [show decRev (x :: l) = 255 :: decRev l by simp [decRev, hc]]
      rw [show incRev (255 :: decRev l) = 0 :: incRev (decRev l) by simp [incRev]]
      rw [ih hwl, hx0]

/-! ### The Comparator -/

theorem cmpBytes_self (l : IPBytes) : cmpBytes l l = 0 := by
  induction l with
  | nil => rfl
  | cons x l ih => simp [cmpBytes, ih]

theorem cmpBytes_eq_zero_iff (a : IPBytes) : ∀ b, cmpBytes a b = 0 ↔ a = b := by
  induction a with
  | nil =>
    intro b
    cases b with
    | nil => simp [cmpBytes]
    | cons y ys => simp [cmpBytes]
  | cons x xs ih =>
    intro b
    cases b with
    | nil => simp [cmpBytes]
    | cons y ys =>
      by_cases hxy : x < y
      · simp only [cmpBytes, if_pos hxy]
        constructor
        · intro hcontra; exact absurd hcontra (by decide)
        · intro heq
          cases heq
          omega
      · by_cases hyx : y < x
        · simp only [cmpBytes, if_neg hxy, if_pos hyx]
          constructor
          · intro hcontra; exact absurd hcontra (by decide)
          · intro heq
            cases heq
            omega
        · have hxe : x = y := by omega
          simp only [cmpBytes, if_neg hxy, if_neg hyx, ih ys]
          subst hxe
          simp

theorem Cmp_self (a : IPBytes) : Cmp a a = 0 := cmpBytes_self _

theorem Cmp_eq_zero_iff (a b : IPBytes) : Cmp a b = 0 ↔ normIP a = normIP b :=
  cmpBytes_eq_zero_iff _ _

theorem Cmp_zero_comm (a b : IPBytes) : Cmp a b = 0 ↔ Cmp b a = 0 := by
  rw [Cmp_eq_zero_iff, Cmp_eq_zero_iff, eq_comm]

/-! ### Masks: `CIDRMask` bytes realize numeric truncation of the host bits -/

theorem maskBytesAux_length (n : Nat) : ∀ r, (maskBytesAux n r).length = n := by
  induction n with
  | zero => intro r; rfl
  | succ n ih =>
    intro r
    by_cases h8 : 8 ≤ r
    · rw [show maskBytesAux (n + 1) r = 255 :: maskBytesAux n (r - 8) by simp [maskBytesAux, h8]]
      simp [ih]
    · rw [show maskBytesAux (n + 1) r = (256 - 2 ^ (8 - r)) :: maskBytesAux n 0 by
        simp [maskBytesAux, h8]]
      simp [ih]

theorem maskBytesAux_zero (n : Nat) : maskBytesAux n 0 = List.replicate n 0 := by
  induction n with
  | zero => rfl
  | succ n ih =>
    rw [show maskBytesAux (n + 1) 0 = (256 - 2 ^ (8 - 0)) :: maskBytesAux n 0 by
      simp [maskBytesAux]]
    rw [ih]
    rfl

theorem andBytes_replicate_zero (b : List Nat) : ∀ n, bytesToNat (andBytes b (List.replicate n 0)) = 0 := by
  induction b with
  | nil => intro n; cases n <;> rfl
  | cons x rest ih =>
    intro n
    cases n with
    | zero => rfl
    | succ n =>
      show bytesToNat (Nat.land x 0 :: andBytes rest (List.replicate n 0)) = 0
      rw [bytesToNat_cons, land_zero', ih n]
      ring

theorem andBytes_length (a : List Nat) : ∀ m, (andBytes a m).length = min a.length m.length := by
  intro m
  simp [andBytes]

theorem andBytes_mask_toNat (b : List Nat) : (∀ x ∈ b, x < 256) → ∀ p, p ≤ 8 * b.length →
    bytesToNat (andBytes b (maskBytesAux b.length p)) =
      bytesToNat b / 2 ^ (8 * b.length - p) * 2 ^ (8 * b.length - p) := by
  induction b with
  | nil =>
    intro _ p hp
    simp only [List.length_nil, Nat.mul_zero, Nat.le_zero] at hp
    subst hp
    rfl
  | cons x rest ih =>
    intro h p hp
    have hx : x < 256 := h x (List.mem_cons_self x rest)
    have hwr : ∀ y ∈ rest, y < 256 := fun y hy => h y (List.mem_cons_of_mem x hy)
    have hTlt : bytesToNat rest < 256 ^ rest.length := bytesToNat_lt rest hwr
    have hlen : (x :: rest).length = rest.length + 1 := List.length_cons x rest
    have h256 : (256 : Nat) ^ rest.length = 2 ^ (8 * rest.length) := by
      rw [show (256 : Nat) = 2 ^ 8 from rfl, ← pow_mul]
    by_cases h8 : 8 ≤ p
    · have hmask : maskBytesAux (x :: rest).length p = 255 :: maskBytesAux rest.length (p - 8) := by
        rw [hlen]; simp [maskBytesAux, h8]
      rw [hmask]
      show bytesToNat (Nat.land x 255 :: andBytes rest (maskBytesAux rest.length (p - 8))) = _
      rw [bytesToNat_cons, land_255 x hx, andBytes_length, maskBytesAux_length, min_self,
        ih hwr (p - 8) (by omega), bytesToNat_cons]
      have hk : 8 * rest.length - (p - 8) = 8 * (x :: rest).length - p := by
        rw [hlen]; omega
      rw [hk]
      set k := 8 * (x :: rest).length - p with hkdef
      have hk8 : k ≤ 8 * rest.length := by rw [hkdef, hlen]; omega
      have hsplit : (256 : Nat) ^ rest.length = 2 ^ k * 2 ^ (8 * rest.length - k) := by
        rw [h256, ← pow_add]
        congr 1
        omega
      have hpos : 0 < 2 ^ k := Nat.pos_pow_of_pos _ (by omega)
      calc x * 256 ^ rest.length + bytesToNat rest / 2 ^ k * 2 ^ k
          = 2 ^ k * (x * 2 ^ (8 * rest.length - k)) + bytesToNat rest / 2 ^ k * 2 ^ k := by
            rw [hsplit]; ring
        _ = (x * 2 ^ (8 * rest.length - k) + bytesToNat rest / 2 ^ k) * 2 ^ k := by ring
        _ = ((2 ^ k * (x * 2 ^ (8 * rest.length - k)) + bytesToNat rest) / 2 ^ k) * 2 ^ k := by
            rw [Nat.mul_add_div hpos]
        _ = (x * 256 ^ rest.length + bytesToNat rest) / 2 ^ k * 2 ^ k := by
            rw [hsplit]; ring_nf
    · have hmask : maskBytesAux (x :: rest).length p
          = (256 - 2 ^ (8 - p)) :: maskBytesAux rest.length 0 := by
        rw [hlen]; simp [maskBytesAux, h8]
      rw [hmask, maskBytesAux_zero]
      show bytesToNat (Nat.land x (256 - 2 ^ (8 - p)) :: andBytes rest (List.replicate rest.length 0)) = _
      rw [bytesToNat_cons, land_high x hx (8 - p) (by omega), bytesToNat_cons]
      have hzlen : (andBytes rest (List.replicate rest.length 0)).length = rest.length := by
        rw [andBytes_length, List.length_replicate, min_self]
      rw [hzlen]
      have hzero : bytesToNat (andBytes rest (List.replicate rest.length 0)) = 0 :=
        andBytes_replicate_zero rest rest.length
      rw [hzero]
      set q := 8 - p with hqdef
      have hk : 8 * (x :: rest).length - p = 8 * rest.length + q := by rw [hlen]; omega
      rw [hk]
      have hsplit : (2 : Nat) ^ (8 * rest.length + q) = 256 ^ rest.length * 2 ^ q := by
        rw [h256, ← pow_add]
      have hposN : 0 < (256 : Nat) ^ rest.length := Nat.pos_pow_of_pos _ (by omega)
      have hdivN : (x * 256 ^ rest.length + bytesToNat rest) / 256 ^ rest.length = x := by
        rw [Nat.mul_comm x, Nat.mul_add_div hposN, Nat.div_eq_of_lt hTlt]
        omega
      have hdd : (x * 256 ^ rest.length + bytesToNat rest) / 2 ^ (8 * rest.length + q)
          = x / 2 ^ q := by
        rw [hsplit, ← Nat.div_div_eq_div_mul, hdivN]
      rw [hdd, hsplit]
      ring

theorem andBytes_mask_toNat' (b : List Nat) (w : Nat) (hw : b.length = w)
    (hwf : ∀ x ∈ b, x < 256) (p : Nat) (hp : p ≤ 8 * w) :
    bytesToNat (andBytes b (goCIDRMask p (8 * w))) =
      bytesToNat b / 2 ^ (8 * w - p) * 2 ^ (8 * w - p) := by
  have hmask : goCIDRMask p (8 * w) = maskBytesAux b.length p := by
    rw [goCIDRMask, hw, Nat.mul_div_cancel_left w (by omega)]
  rw [hmask, andBytes_mask_toNat b hwf p (by omega), hw]

/-! ### Mask application is idempotent -/

theorem andBytes_idem (a : List Nat) : ∀ m, andBytes (andBytes a m) m = andBytes a m := by
  induction a with
  | nil => intro m; rfl
  | cons x rest ih =>
    intro m
    cases m with
    | nil => rfl
    | cons y m =>
      show Nat.land (Nat.land x y) y :: andBytes (andBytes rest m) m = _
      rw [land_land_self, ih m]
      rfl

/-! ### Canonical widths -/

theorem normIP_goIPv4 (b : IPBytes) (hb : b.length = 4) : normIP (goIPv4 b) = b := by
  have hlen : (goIPv4 b).length = 16 := by
    rw [goIPv4, List.length_append, hb]
    rfl
  have htake : (goIPv4 b).take 12 = v4Marker := by
    rw [goIPv4, show (12 : Nat) = v4Marker.length from rfl, List.take_left]
  have hdrop : (goIPv4 b).drop 12 = b := by
    rw [goIPv4, show (12 : Nat) = v4Marker.length from rfl, List.drop_left]
  rw [normIP, to4, if_neg (by omega), if_pos ⟨hlen, htake⟩, hdrop]
  rfl

theorem normIP_len4 (b : IPBytes) (hb : b.length = 4) : normIP b = b := by
  rw [normIP, to4, if_pos hb]
  rfl

/-! ### Evaluation and shape lemmas for the Parser and the Predicate Engine -/

theorem IsCIDR_v4 (b : IPBytes) (p : Nat) (h : (IPText.v4cidr b p).wf = true) :
    IsCIDR 4 (.v4cidr b p) = none := by
  simp [IsCIDR, IsIPVersion, IsIPv4CIDR, h]

theorem IsCIDR_v6 (b : IPBytes) (p : Nat) (h : (IPText.v6cidr b p).wf = true) :
    IsCIDR 6 (.v6cidr b p) = none := by
  simp [IsCIDR, IsIPVersion, IsIPv6CIDR, h]

theorem ParseCIDR_v4 (b : IPBytes) (p : Nat) (h : (IPText.v4cidr b p).wf = true) :
    ParseCIDR 4 (.v4cidr b p) = (some ⟨andBytes b (goCIDRMask p 32), p, 32⟩, none) := by
  rw [ParseCIDR, IsCIDR_v4 b p h]
  simp [goParseCIDR, h]

theorem ParseCIDR_v6 (b : IPBytes) (p : Nat) (h : (IPText.v6cidr b p).wf = true) :
    ParseCIDR 6 (.v6cidr b p) = (some ⟨andBytes b (goCIDRMask p 128), p, 128⟩, none) := by
  rw [ParseCIDR, IsCIDR_v6 b p h]
  simp [goParseCIDR, h]

theorem ParseCIDR_success (v : Nat) (t : IPText) (n : IPNet)
    (h : ParseCIDR v t = (some n, none)) :
    (∃ b p, t = .v4cidr b p ∧ (IPText.v4cidr b p).wf = true
      ∧ n = ⟨andBytes b (goCIDRMask p 32), p, 32⟩)
    ∨ (∃ b p, t = .v6cidr b p ∧ (IPText.v6cidr b p).wf = true
      ∧ n = ⟨andBytes b (goCIDRMask p 128), p, 128⟩) := by
  rw [ParseCIDR] at h
  cases hc : IsCIDR v t with
  | some e => rw [hc] at h; simp at h
  | none =>
    rw [hc] at h
    cases hg : goParseCIDR t with
    | none => rw [hg] at h; simp at h
    | some pair =>
      rw [hg] at h
      obtain ⟨ip0, n0⟩ := pair
      have hn : n0 = n := by
        have := congrArg Prod.fst h
        simpa using this
      subst hn
      cases t with
      | v4 b => simp [goParseCIDR] at hg
      | v6 b => simp [goParseCIDR] at hg
      | bad => simp [goParseCIDR] at hg
      | v4cidr b p =>
        left
        by_cases hwf : (IPText.v4cidr b p).wf = true
        · refine ⟨b, p, rfl, hwf, ?_⟩
          simp [goParseCIDR, hwf] at hg
          exact hg.2.symm
        · simp [goParseCIDR, hwf] at hg
      | v6cidr b p =>
        right
        by_cases hwf : (IPText.v6cidr b p).wf = true
        · refine ⟨b, p, rfl, hwf, ?_⟩
          simp [goParseCIDR, hwf] at hg
          exact hg.2.symm
        · simp [goParseCIDR, hwf] at hg

theorem ParseCIDR_base_masked (v : Nat) (t : IPText) (n : IPNet)
    (h : ParseCIDR v t = (some n, none)) :
    andBytes n.ip (goCIDRMask n.maskOnes n.maskBits) = n.ip := by
  rcases ParseCIDR_success v t n h with ⟨b, p, _, _, hn⟩ | ⟨b, p, _, _, hn⟩ <;>
    (subst hn; exact andBytes_idem b _)

theorem ContainsCIDR_eval (v : Nat) (t1 t2 : IPText) (n1 n2 : IPNet)
    (h1 : ParseCIDR v t1 = (some n1, none)) (h2 : ParseCIDR v t2 = (some n2, none)) :
    ContainsCIDR v t1 t2
      = (decide (andBytes n2.ip (goCIDRMask n1.maskOnes n1.maskBits) = n1.ip)
          && decide (n1.maskOnes ≤ n2.maskOnes), none) := by
  rw [ContainsCIDR, h1, h2]

theorem IsCIDROverlap_eval (v : Nat) (t1 t2 : IPText) (n1 n2 : IPNet)
    (h1 : ParseCIDR v t1 = (some n1, none)) (h2 : ParseCIDR v t2 = (some n2, none)) :
    IsCIDROverlap v t1 t2
      = (decide (andBytes n1.ip (goCIDRMask (min n1.maskOnes n2.maskOnes) n1.maskBits)
          = andBytes n2.ip (goCIDRMask (min n1.maskOnes n2.maskOnes) n2.maskBits)), none) := by
  rw [IsCIDROverlap, h1, h2]

theorem IsCIDROverlap_symm (v : Nat) (t1 t2 : IPText) :
    (IsCIDROverlap v t1 t2).1 = (IsCIDROverlap v t2 t1).1 := by
  rcases h1 : ParseCIDR v t1 with ⟨o1, e1⟩
  rcases h2 : ParseCIDR v t2 with ⟨o2, e2⟩
  rw [IsCIDROverlap, IsCIDROverlap, h1, h2]
  rcases o1 with _ | n1 <;> rcases e1 with _ | e1 <;> rcases o2 with _ | n2 <;>
    rcases e2 with _ | e2 <;> try rfl
  show decide _ = decide _
  rw [Nat.min_comm n2.maskOnes n1.maskOnes]
  exact decide_eq_decide.mpr eq_comm

/-! ### Error propagation (spec §7) -/

theorem IsIPVersion_invalid (v : Nat) (hv : ¬(v = 4 ∨ v = 6)) :
    IsIPVersion v = some .invalidIPVersion := by
  rw [IsIPVersion, if_neg hv]

theorem IsIP_version_first (v : Nat) (t : IPText) (hv : ¬(v = 4 ∨ v = 6)) :
    IsIP v t = some .invalidIPVersion := by
  rw [IsIP, IsIPVersion_invalid v hv]

theorem IsCIDR_version_first (v : Nat) (t : IPText) (hv : ¬(v = 4 ∨ v = 6)) :
    IsCIDR v t = some .invalidIPVersion := by
  rw [IsCIDR, IsIPVersion_invalid v hv]

theorem ParseIP_version_first (v : Nat) (t : IPText) (c : Bool) (hv : ¬(v = 4 ∨ v = 6)) :
    ParseIP v t c = (none, some .invalidIPVersion) := by
  rw [ParseIP, IsIPVersion_invalid v hv]

theorem ParseCIDR_version_first (v : Nat) (t : IPText) (hv : ¬(v = 4 ∨ v = 6)) :
    ParseCIDR v t = (none, some .invalidIPVersion) := by
  rw [ParseCIDR, IsCIDR_version_first v t hv]

theorem ContainsIP_version_first (v : Nat) (t1 t2 : IPText) (hv : ¬(v = 4 ∨ v = 6)) :
    ContainsIP v t1 t2 = (false, some .invalidIPVersion) := by
  rw [ContainsIP, ParseCIDR_version_first v t1 hv]

theorem ContainsCIDR_version_first (v : Nat) (t1 t2 : IPText) (hv : ¬(v = 4 ∨ v = 6)) :
    ContainsCIDR v t1 t2 = (false, some .invalidIPVersion) := by
  rw [ContainsCIDR, ParseCIDR_version_first v t1 hv]

theorem IsCIDROverlap_version_first (v : Nat) (t1 t2 : IPText) (hv : ¬(v = 4 ∨ v = 6)) :
    IsCIDROverlap v t1 t2 = (false, some .invalidIPVersion) := by
  rw [IsCIDROverlap, ParseCIDR_version_first v t1 hv]

theorem IsIP_kinds (v : Nat) (t : IPText) (hv : v = 4 ∨ v = 6) :
    IsIP v t = none ∨ IsIP v t = some .invalidIPFormat := by
  rw [IsIP, IsIPVersion, if_pos hv]
  by_cases hc : (v = 4 ∧ isV4AddrText t = true) ∨ (v = 6 ∧ isV6AddrText t = true)
  · left; simp [hc]
  · right; simp [hc]

theorem IsCIDR_kinds (v : Nat) (t : IPText) (hv : v = 4 ∨ v = 6) :
    IsCIDR v t = none ∨ IsCIDR v t = some .invalidCIDRFormat := by
  rw [IsCIDR, IsIPVersion, if_pos hv]
  by_cases hc : (v = 4 ∧ IsIPv4CIDR t = true) ∨ (v = 6 ∧ IsIPv6CIDR t = true)
  · left; simp [hc]
  · right; simp [hc]

theorem ParseCIDR_kinds (v : Nat) (t : IPText) (hv : v = 4 ∨ v = 6) :
    (ParseCIDR v t).2 = none ∨ (ParseCIDR v t).2 = some .invalidCIDRFormat := by
  rw [ParseCIDR]
  rcases IsCIDR_kinds v t hv with hc | hc <;> rw [hc]
  · cases hg : goParseCIDR t with
    | none => right; rfl
    | some pair => obtain ⟨ip0, n0⟩ := pair; left; rfl
  · right; rfl

theorem ParseIP_kinds_cidr (v : Nat) (t : IPText) (hv : v = 4 ∨ v = 6) :
    (ParseIP v t true).2 = none ∨ (ParseIP v t true).2 = some .invalidCIDRFormat := by
  rw [ParseIP, IsIPVersion, if_pos hv]
  rcases IsCIDR_kinds v t hv with hc | hc <;> rw [if_pos rfl, hc]
  · cases hg : goParseCIDR t with
    | none => right; rfl
    | some pair => obtain ⟨ip0, n0⟩ := pair; left; rfl
  · right; rfl

theorem ParseIP_kinds_bare (v : Nat) (t : IPText) (hv : v = 4 ∨ v = 6) :
    (ParseIP v t false).2 = none ∨ (ParseIP v t false).2 = some .invalidIPFormat := by
  rw [ParseIP, IsIPVersion, if_pos hv]
  rcases IsIP_kinds v t hv with hc | hc <;> rw [if_neg (by simp), hc]
  · cases hg : goParseIP t with
    | none => right; rfl
    | some ip => left; rfl
  · right; rfl

theorem ContainsCIDR_kinds (v : Nat) (t1 t2 : IPText) (hv : v = 4 ∨ v = 6) :
    (ContainsCIDR v t1 t2).2 = none ∨ (ContainsCIDR v t1 t2).2 = some .invalidCIDRFormat := by
  rw [ContainsCIDR]
  rcases h1 : ParseCIDR v t1 with ⟨o1, e1⟩
  have k1 := ParseCIDR_kinds v t1 hv
  rw [h1] at k1
  cases e1 with
  | some e =>
    rcases k1 with k1 | k1
    · cases k1
    · right
      cases k1
      cases o1 <;> rfl
  | none =>
    cases o1 with
    | none => left; rfl
    | some n1 =>
      rcases h2 : ParseCIDR v t2 with ⟨o2, e2⟩
      have k2 := ParseCIDR_kinds v t2 hv
      rw [h2] at k2
      cases e2 with
      | some e =>
        rcases k2 with k2 | k2
        · cases k2
        · right
          cases k2
          cases o2 <;> rfl
      | none =>
        cases o2 with
        | none => left; rfl
        | some n2 => left; rfl

theorem IsCIDROverlap_kinds (v : Nat) (t1 t2 : IPText) (hv : v = 4 ∨ v = 6) :
    (IsCIDROverlap v t1 t2).2 = none ∨ (IsCIDROverlap v t1 t2).2 = some .invalidCIDRFormat := by
  rw [IsCIDROverlap]
  rcases h1 : ParseCIDR v t1 with ⟨o1, e1⟩
  have k1 := ParseCIDR_kinds v t1 hv
  rw [h1] at k1
  cases e1 with
  | some e =>
    rcases k1 with k1 | k1
    · cases k1
    · right
      cases k1
      cases o1 <;> rfl
  | none =>
    cases o1 with
    | none => left; rfl
    | some n1 =>
      rcases h2 : ParseCIDR v t2 with ⟨o2, e2⟩
      have k2 := ParseCIDR_kinds v t2 hv
      rw [h2] at k2
      cases e2 with
      | some e =>
        rcases k2 with k2 | k2
        · cases k2
        · right
          cases k2
          cases o2 <;> rfl
      | none =>
        cases o2 with
        | none => left; rfl
        | some n2 => left; rfl

theorem ContainsIP_kinds (v : Nat) (t1 t2 : IPText) (hv : v = 4 ∨ v = 6) :
    (ContainsIP v t1 t2).2 = none ∨ (ContainsIP v t1 t2).2 = some .invalidCIDRFormat
      ∨ (ContainsIP v t1 t2).2 = some .invalidIPFormat := by
  rw [ContainsIP]
  rcases h1 : ParseCIDR v t1 with ⟨o1, e1⟩
  have k1 := ParseCIDR_kinds v t1 hv
  rw [h1] at k1
  cases e1 with
  | some e =>
    rcases k1 with k1 | k1
    · cases k1
    · right; left
      cases k1
      cases o1 <;> rfl
  | none =>
    cases o1 with
    | none => left; rfl
    | some n1 =>
      rcases IsIP_kinds v t2 hv with hi | hi <;> rw [hi]
      · cases hg : goParseIP t2 with
        | none => right; right; rfl
        | some ip => left; rfl
      · right; right; rfl

theorem ParseIP_neutral (v : Nat) (t : IPText) (c : Bool) :
    (ParseIP v t c).1 = none ∨ (ParseIP v t c).2 = none := by
  rw [ParseIP]
  repeat' split
  all_goals simp

theorem ParseCIDR_neutral (v : Nat) (t : IPText) :
    (ParseCIDR v t).1 = none ∨ (ParseCIDR v t).2 = none := by
  rw [ParseCIDR]
  repeat' split
  all_goals simp

theorem ContainsIP_neutral (v : Nat) (t1 t2 : IPText) :
    (ContainsIP v t1 t2).1 = false ∨ (ContainsIP v t1 t2).2 = none := by
  rw [ContainsIP]
  repeat' split
  all_goals simp

theorem ContainsCIDR_neutral (v : Nat) (t1 t2 : IPText) :
    (ContainsCIDR v t1 t2).1 = false ∨ (ContainsCIDR v t1 t2).2 = none := by
  rw [ContainsCIDR]
  repeat' split
  all_goals simp

theorem IsCIDROverlap_neutral (v : Nat) (t1 t2 : IPText) :
    (IsCIDROverlap v t1 t2).1 = false ∨ (IsCIDROverlap v t1 t2).2 = none := by
  rw [IsCIDROverlap]
  repeat' split
  all_goals simp

/-! ### Set algebra: the difference set -/

theorem memByCmp_nil (x : IPBytes) : memByCmp x [] = false := rfl

theorem memByCmp_cons (x y : IPBytes) (l : List IPBytes) :
    memByCmp x (y :: l) = (decide (Cmp x y = 0) || memByCmp x l) := by
  simp [memByCmp]

theorem diffGo_sublist (bs : List IPBytes) : ∀ as seen, (diffGo as bs seen).Sublist as := by
  intro as
  induction as with
  | nil => intro seen; simp [diffGo]
  | cons a rest ih =>
    intro seen
    show (if memByCmp a bs || memByCmp a seen then diffGo rest bs seen
      else a :: diffGo rest bs (a :: seen)).Sublist (a :: rest)
    by_cases hc : (memByCmp a bs || memByCmp a seen) = true
    · rw [if_pos hc]; exact (ih seen).cons a
    · rw [if_neg hc]; exact (ih (a :: seen)).cons₂ a

theorem diffGo_not_bs (bs : List IPBytes) : ∀ as seen x, x ∈ diffGo as bs seen →
    memByCmp x bs = false := by
  intro as
  induction as with
  | nil => intro seen x hx; simp [diffGo] at hx
  | cons a rest ih =>
    intro seen x hx
    rw [show diffGo (a :: rest) bs seen = if memByCmp a bs || memByCmp a seen
      then diffGo rest bs seen else a :: diffGo rest bs (a :: seen) from rfl] at hx
    by_cases hc : (memByCmp a bs || memByCmp a seen) = true
    · rw [if_pos hc] at hx
      exact ih seen x hx
    · rw [if_neg hc] at hx
      simp only [Bool.or_eq_true, not_or, Bool.not_eq_true] at hc
      rcases List.mem_cons.mp hx with rfl | hx'
      · exact hc.1
      · exact ih (a :: seen) x hx'

theorem diffGo_covers (bs : List IPBytes) : ∀ as seen x, x ∈ as → memByCmp x bs = false →
    memByCmp x seen = true ∨ memByCmp x (diffGo as bs seen) = true := by
  intro as
  induction as with
  | nil => intro seen x hx; cases hx
  | cons a rest ih =>
    intro seen x hx hxbs
    rw [show diffGo (a :: rest) bs seen = if memByCmp a bs || memByCmp a seen
      then diffGo rest bs seen else a :: diffGo rest bs (a :: seen) from rfl]
    by_cases hc : (memByCmp a bs || memByCmp a seen) = true
    · rw [if_pos hc]
      rcases List.mem_cons.mp hx with rfl | hx'
      · left
        rcases (Bool.or_eq_true _ _).mp hc with h | h
        · rw [hxbs] at h; cases h
        · exact h
      · exact ih seen x hx' hxbs
    · rw [if_neg hc]
      rcases List.mem_cons.mp hx with rfl | hx'
      · right
        rw [memByCmp_cons]
        simp [Cmp_self]
      · rcases ih (a :: seen) x hx' hxbs with h | h
        · rw [memByCmp_cons] at h
          rcases (Bool.or_eq_true _ _).mp h with h0 | h0
          · right; rw [memByCmp_cons, h0]; simp
          · left; exact h0
        · right; rw [memByCmp_cons, h]; simp

theorem diffGo_fresh_pairwise (bs : List IPBytes) : ∀ as seen,
    (∀ x ∈ diffGo as bs seen, memByCmp x seen = false)
    ∧ (diffGo as bs seen).Pairwise (fun a b => Cmp a b ≠ 0) := by
  intro as
  induction as with
  | nil =>
    intro seen
    exact ⟨fun x hx => by simp [diffGo] at hx, by simp [diffGo]⟩
  | cons a rest ih =>
    intro seen
    rw [show diffGo (a :: rest) bs seen = if memByCmp a bs || memByCmp a seen
      then diffGo rest bs seen else a :: diffGo rest bs (a :: seen) from rfl]
    by_cases hc : (memByCmp a bs || memByCmp a seen) = true
    · rw [if_pos hc]
      exact ih seen
    · rw [if_neg hc]
      simp only [Bool.or_eq_true, not_or, Bool.not_eq_true] at hc
      obtain ⟨fresh, pw⟩ := ih (a :: seen)
      constructor
      · intro x hx
        rcases List.mem_cons.mp hx with rfl | hx'
        · exact hc.2
        · have hf := fresh x hx'
          rw [memByCmp_cons] at hf
          exact (Bool.or_eq_false_iff.mp hf).2
      · refine List.Pairwise.cons ?_ pw
        intro y hy
        have hf := fresh y hy
        rw [memByCmp_cons] at hf
        have h0 := (Bool.or_eq_false_iff.mp hf).1
        have h1 : ¬(Cmp y a = 0) := of_decide_eq_false h0
        intro hcontra
        exact h1 ((Cmp_zero_comm a y).mp hcontra)

theorem diffGo_eq_dedup (bs : List IPBytes) : ∀ as seen,
    diffGo as bs seen
      = dedupFirstByCmp (as.filter (fun x => !(memByCmp x bs) && !(memByCmp x seen))) := by
  intro as
  induction as with
  | nil => intro seen; simp [diffGo, dedupFirstByCmp]
  | cons a rest ih =>
    intro seen
    show (if memByCmp a bs || memByCmp a seen then diffGo rest bs seen
        else a :: diffGo rest bs (a :: seen))
      = dedupFirstByCmp ((a :: rest).filter (fun x => !(memByCmp x bs) && !(memByCmp x seen)))
    rw [List.filter_cons]
    by_cases hc : (memByCmp a bs || memByCmp a seen) = true
    · rw [if_pos hc]
      have hpa : (!(memByCmp a bs) && !(memByCmp a seen)) = false := by
        rcases (Bool.or_eq_true _ _).mp hc with h | h <;> simp [h]
      rw [hpa, if_neg (by simp)]
      exact ih seen
    · rw [if_neg hc]
      simp only [Bool.or_eq_true, not_or, Bool.not_eq_true] at hc
      have hpa : (!(memByCmp a bs) && !(memByCmp a seen)) = true := by
        simp [hc.1, hc.2]
      rw [hpa, if_pos (by simp)]
      rw [dedupFirstByCmp]
      congr 1
      rw [ih (a :: seen), List.filter_filter]
      congr 1
      apply List.filter_congr
      intro y _
      rw [memByCmp_cons]
      generalize memByCmp y bs = b1
      generalize memByCmp y seen = b2
      generalize decide (Cmp y a = 0) = b3
      revert b1 b2 b3
      decide

theorem IPsDiffSet_eq_spec (A B : List IPBytes) : IPsDiffSet A B = IPsDiffSetSpec A B := by
  rw [IPsDiffSet, diffGo_eq_dedup B A [], IPsDiffSetSpec]
  congr 1
  apply List.filter_congr
  intro x _
  rw [memByCmp_nil]
  simp

/-! ### Well-formedness unpacking -/

theorem wf_v4 (b : IPBytes) (h : (IPText.v4 b).wf = true) :
    b.length = 4 ∧ ∀ x ∈ b, x < 256 := by
  simp [IPText.wf] at h
  exact h

theorem wf_v4cidr (b : IPBytes) (p : Nat) (h : (IPText.v4cidr b p).wf = true) :
    b.length = 4 ∧ (∀ x ∈ b, x < 256) ∧ p ≤ 32 := by
  simp [IPText.wf] at h
  exact ⟨h.1.1, h.1.2, h.2⟩

theorem wf_v6cidr (b : IPBytes) (p : Nat) (h : (IPText.v6cidr b p).wf = true) :
    b.length = 16 ∧ (∀ x ∈ b, x < 256) ∧ p ≤ 128 := by
  simp [IPText.wf] at h
  exact ⟨h.1.1, h.1.2, h.2⟩

/-! ### Remaining evaluation helpers for `ParseIP` -/

theorem ParseIP_cidr_v4_eval (b : IPBytes) (p : Nat) (h : (IPText.v4cidr b p).wf = true) :
    ParseIP 4 (.v4cidr b p) true = (some ⟨goIPv4 b, p, 32⟩, none) := by
  rw [ParseIP, IsIPVersion, if_pos (Or.inl rfl), if_pos rfl, IsCIDR_v4 b p h]
  simp [goParseCIDR, h]

theorem ParseIP_cidr_v6_eval (b : IPBytes) (p : Nat) (h : (IPText.v6cidr b p).wf = true) :
    ParseIP 6 (.v6cidr b p) true = (some ⟨b, p, 128⟩, none) := by
  rw [ParseIP, IsIPVersion, if_pos (Or.inr rfl), if_pos rfl, IsCIDR_v6 b p h]
  simp [goParseCIDR, h]

theorem ParseIP_bare_v4_eval (b : IPBytes) (h : (IPText.v4 b).wf = true) :
    ParseIP 4 (.v4 b) false = (some ⟨goIPv4 b, 32, 32⟩, none) := by
  have hip : IsIP 4 (.v4 b) = none := by simp [IsIP, IsIPVersion, isV4AddrText, h]
  rw [ParseIP, IsIPVersion, if_pos (Or.inl rfl), if_neg (by simp), hip]
  simp [goParseIP, h]

theorem ParseIP_bare_v6_eval (b : IPBytes) (h : (IPText.v6 b).wf = true) :
    ParseIP 6 (.v6 b) false = (some ⟨b, 128, 128⟩, none) := by
  have hip : IsIP 6 (.v6 b) = none := by simp [IsIP, IsIPVersion, isV6AddrText, h]
  rw [ParseIP, IsIPVersion, if_pos (Or.inr rfl), if_neg (by simp), hip]
  simp [goParseIP, h]

theorem goIPv4_length (b : IPBytes) (hb : b.length = 4) : (goIPv4 b).length = 16 := by
  rw [goIPv4, List.length_append, hb]
  rfl

theorem goCIDRMask32_length (p : Nat) : (goCIDRMask p 32).length = 4 :=
  maskBytesAux_length 4 p

/-! ## The claims -/

/-- C1, counterexample: `ParseIP(V4, "172.18.40.40/24", true)` does *not*
return the masked network base `172.18.40.0` claimed by the spec — it
returns a block whose base is the unmasked host address `172.18.40.40`
(in Go's 16-byte V4-in-V6 form), exactly as the repository's own test
(`part_000:86-95`) expects. -/
theorem C1_counterexample :
    ParseIP 4 (.v4cidr [172, 18, 40, 40] 24) true
      = (some ⟨goIPv4 [172, 18, 40, 40], 24, 32⟩, none)
    ∧ normIP (goIPv4 [172, 18, 40, 40]) = [172, 18, 40, 40]
    ∧ ¬ normIP (goIPv4 [172, 18, 40, 40]) = [172, 18, 40, 0] := by decide

/-- C1, amended: for every valid CIDR text of the declared family,
`ParseIP` with `asCIDR = true` returns a block carrying the text's mask
length together with the *unmasked* parsed host address as base (the
masked network base is what `ParseCIDR` returns instead). -/
theorem C1_ParseIP_cidr_base_unmasked :
    (∀ b p, (IPText.v4cidr b p).wf = true →
      ParseIP 4 (.v4cidr b p) true = (some ⟨goIPv4 b, p, 32⟩, none))
    ∧ (∀ b p, (IPText.v6cidr b p).wf = true →
      ParseIP 6 (.v6cidr b p) true = (some ⟨b, p, 128⟩, none)) :=
  ⟨fun b p h => ParseIP_cidr_v4_eval b p h, fun b p h => ParseIP_cidr_v6_eval b p h⟩

/-- C1, witness at a concrete input. -/
theorem C1_witness :
    ParseIP 4 (.v4cidr [10, 0, 0, 1] 8) true = (some ⟨goIPv4 [10, 0, 0, 1], 8, 32⟩, none) :=
  C1_ParseIP_cidr_base_unmasked.1 [10, 0, 0, 1] 8 (by decide)

/-- C2, counterexample: for the same V4 family and the very same text,
`ParseIP` returns a 16-byte base while `ParseCIDR` returns a 4-byte base —
the two widths differ, refuting the claim that both are held at the 4-byte
canonical width (this is exactly what the repository's tests pin:
`net.IPv4(...)` for `ParseIP`, `net.IPv4(...).To4()` for `ParseCIDR`). -/
theorem C2_counterexample :
    (ParseIP 4 (.v4cidr [172, 18, 40, 40] 24) true).1.map (fun n => n.ip.length) = some 16
    ∧ (ParseCIDR 4 (.v4cidr [172, 18, 40, 40] 24)).1.map (fun n => n.ip.length) = some 4
    ∧ (ParseIP 4 (.v4cidr [172, 18, 40, 40] 24) true).1.map (fun n => n.ip.length)
      ≠ (ParseCIDR 4 (.v4cidr [172, 18, 40, 40] 24)).1.map (fun n => n.ip.length) := by decide

/-- C2, amended: the two parse entry points return V4 bases at *different*
widths (16-byte V4-in-V6 from `ParseIP`, 4-byte from `ParseCIDR`), and it
is the Comparator that projects to the canonical form: `Cmp` treats the
16-byte V4-mapped form and the 4-byte form of the same address as equal. -/
theorem C2_widths_and_canonicalization :
    (∀ b p, (IPText.v4cidr b p).wf = true →
      (ParseIP 4 (.v4cidr b p) true).1.map (fun n => n.ip.length) = some 16
      ∧ (ParseCIDR 4 (.v4cidr b p)).1.map (fun n => n.ip.length) = some 4)
    ∧ (∀ b, b.length = 4 → Cmp (goIPv4 b) b = 0) := by
  constructor
  · intro b p h
    obtain ⟨hb, hwfb, hp⟩ := wf_v4cidr b p h
    constructor
    · rw [ParseIP_cidr_v4_eval b p h]
      simp [goIPv4_length b hb]
    · rw [ParseCIDR_v4 b p h]
      simp [andBytes_length, goCIDRMask32_length, hb]
  · intro b hb
    rw [Cmp, normIP_goIPv4 b hb, normIP_len4 b hb]
    exact cmpBytes_self b

/-- C2, witness at a concrete input. -/
theorem C2_witness :
    (ParseIP 4 (.v4cidr [192, 168, 0, 5] 16) true).1.map (fun n => n.ip.length) = some 16
    ∧ (ParseCIDR 4 (.v4cidr [192, 168, 0, 5] 16)).1.map (fun n => n.ip.length) = some 4 :=
  C2_widths_and_canonicalization.1 [192, 168, 0, 5] 16 (by decide)

/-- C3: for every valid CIDR text of the declared family, `ParseCIDR`
returns the block whose mask length is the one given in the text and whose
base is the masked network address — numerically, the base's value is the
input address with its host bits zeroed (truncated to a multiple of
`2 ^ hostBits`); concretely `ParseCIDR(V4, "172.18.40.40/24")` yields base
`172.18.40.0` with mask length 24. -/
theorem C3_ParseCIDR_masks :
    (∀ b p, (IPText.v4cidr b p).wf = true →
      ParseCIDR 4 (.v4cidr b p) = (some ⟨andBytes b (goCIDRMask p 32), p, 32⟩, none)
      ∧ bytesToNat (andBytes b (goCIDRMask p 32))
        = bytesToNat b / 2 ^ (32 - p) * 2 ^ (32 - p))
    ∧ (∀ b p, (IPText.v6cidr b p).wf = true →
      ParseCIDR 6 (.v6cidr b p) = (some ⟨andBytes b (goCIDRMask p 128), p, 128⟩, none)
      ∧ bytesToNat (andBytes b (goCIDRMask p 128))
        = bytesToNat b / 2 ^ (128 - p) * 2 ^ (128 - p))
    ∧ ParseCIDR 4 (.v4cidr [172, 18, 40, 40] 24)
      = (some ⟨[172, 18, 40, 0], 24, 32⟩, none) := by
  refine ⟨?_, ?_, by decide⟩
  · intro b p h
    obtain ⟨hb, hwfb, hp⟩ := wf_v4cidr b p h
    refine ⟨ParseCIDR_v4 b p h, ?_⟩
    have h2 := andBytes_mask_toNat' b 4 hb hwfb p (by omega)
    norm_num at h2
    exact h2
  · intro b p h
    obtain ⟨hb, hwfb, hp⟩ := wf_v6cidr b p h
    refine ⟨ParseCIDR_v6 b p h, ?_⟩
    have h2 := andBytes_mask_toNat' b 16 hb hwfb p (by omega)
    norm_num at h2
    exact h2

/-- C3, witness at a concrete input. -/
theorem C3_witness :
    ParseCIDR 4 (.v4cidr [10, 1, 2, 3] 16)
      = (some ⟨andBytes [10, 1, 2, 3] (goCIDRMask 16 32), 16, 32⟩, none)
    ∧ bytesToNat (andBytes [10, 1, 2, 3] (goCIDRMask 16 32))
      = bytesToNat [10, 1, 2, 3] / 2 ^ (32 - 16) * 2 ^ (32 - 16) :=
  C3_ParseCIDR_masks.1 [10, 1, 2, 3] 16 (by decide)

/-- C4: for every pair of valid same-family CIDR blocks, `ContainsCIDR`
returns true iff the inner base masked to the outer's mask length equals
the outer's masked base and the inner's mask length is at least the
outer's; consequently every block contains itself, and a block never
contains a block with a strictly shorter (broader) mask. -/
theorem C4_ContainsCIDR_characterization :
    (∀ v t1 t2 n1 n2, ParseCIDR v t1 = (some n1, none) → ParseCIDR v t2 = (some n2, none) →
      (ContainsCIDR v t1 t2 = (true, none)
        ↔ (andBytes n2.ip (goCIDRMask n1.maskOnes n1.maskBits) = n1.ip
            ∧ n1.maskOnes ≤ n2.maskOnes)))
    ∧ (∀ v t n, ParseCIDR v t = (some n, none) → ContainsCIDR v t t = (true, none))
    ∧ (∀ v t1 t2 n1 n2, ParseCIDR v t1 = (some n1, none) → ParseCIDR v t2 = (some n2, none) →
      n2.maskOnes < n1.maskOnes → (ContainsCIDR v t1 t2).1 = false) := by
  have hiff : ∀ v t1 t2 n1 n2, ParseCIDR v t1 = (some n1, none) →
      ParseCIDR v t2 = (some n2, none) →
      (ContainsCIDR v t1 t2 = (true, none)
        ↔ (andBytes n2.ip (goCIDRMask n1.maskOnes n1.maskBits) = n1.ip
            ∧ n1.maskOnes ≤ n2.maskOnes)) := by
    intro v t1 t2 n1 n2 h1 h2
    rw [ContainsCIDR_eval v t1 t2 n1 n2 h1 h2]
    simp [Prod.ext_iff]
  refine ⟨hiff, ?_, ?_⟩
  · intro v t n h
    exact (hiff v t t n n h h).mpr ⟨ParseCIDR_base_masked v t n h, Nat.le_refl _⟩
  · intro v t1 t2 n1 n2 h1 h2 hlt
    rw [ContainsCIDR_eval v t1 t2 n1 n2 h1 h2]
    have : ¬ n1.maskOnes ≤ n2.maskOnes := by omega
    simp [this]

/-- C4, witness: a concrete block contains itself. -/
theorem C4_witness :
    ContainsCIDR 4 (.v4cidr [172, 18, 40, 0] 24) (.v4cidr [172, 18, 40, 0] 24) = (true, none) :=
  C4_ContainsCIDR_characterization.2.1 4 (.v4cidr [172, 18, 40, 0] 24)
    ⟨[172, 18, 40, 0], 24, 32⟩ (by decide)

/-- C5: `IsCIDROverlap` returns the same boolean under argument swap (for
*all* inputs, valid or not), and on valid same-family blocks it returns
true exactly when the two bases agree once both are masked to the shorter
of the two mask lengths. -/
theorem C5_IsCIDROverlap_symm_min :
    (∀ v t1 t2, (IsCIDROverlap v t1 t2).1 = (IsCIDROverlap v t2 t1).1)
    ∧ (∀ v t1 t2 n1 n2, ParseCIDR v t1 = (some n1, none) → ParseCIDR v t2 = (some n2, none) →
      (IsCIDROverlap v t1 t2 = (true, none)
        ↔ andBytes n1.ip (goCIDRMask (min n1.maskOnes n2.maskOnes) n1.maskBits)
            = andBytes n2.ip (goCIDRMask (min n1.maskOnes n2.maskOnes) n2.maskBits))) := by
  refine ⟨IsCIDROverlap_symm, ?_⟩
  intro v t1 t2 n1 n2 h1 h2
  rw [IsCIDROverlap_eval v t1 t2 n1 n2 h1 h2]
  simp [Prod.ext_iff]

/-- C5, witness at a concrete overlapping pair. -/
theorem C5_witness :
    IsCIDROverlap 4 (.v4cidr [172, 18, 40, 0] 24) (.v4cidr [172, 18, 40, 0] 25) = (true, none) :=
  (C5_IsCIDROverlap_symm_min.2 4 (.v4cidr [172, 18, 40, 0] 24) (.v4cidr [172, 18, 40, 0] 25)
    ⟨[172, 18, 40, 0], 24, 32⟩ ⟨[172, 18, 40, 0], 25, 32⟩ (by decide) (by decide)).mpr (by decide)

/-- C6: for every well-formed address that is not its family's all-zero
minimum, `NextIP (PrevIP A)` compares equal to `A` under `Cmp`; at the
minimum, `PrevIP` wraps to the family's all-ones maximum (shown at both
the 4-byte and 16-byte widths). -/
theorem C6_next_undoes_prev :
    (∀ ip : IPBytes, bytesWF ip → ip ≠ List.replicate ip.length 0 →
      Cmp (NextIP (PrevIP ip)) ip = 0)
    ∧ PrevIP (List.replicate 4 0) = List.replicate 4 255
    ∧ PrevIP (List.replicate 16 0) = List.replicate 16 255 := by
  refine ⟨?_, by decide, by decide⟩
  intro ip hwf _
  have hrev : ∀ x ∈ ip.reverse, x < 256 := fun x hx => hwf x (List.mem_reverse.mp hx)
  have hid : NextIP (PrevIP ip) = ip := by
    rw [NextIP, PrevIP, List.reverse_reverse, incRev_decRev ip.reverse hrev,
      List.reverse_reverse]
  rw [hid]
  exact Cmp_self ip

/-- C6, witness at a concrete address. -/
theorem C6_witness :
    bytesWF [172, 18, 40, 40]
    ∧ Cmp (NextIP (PrevIP [172, 18, 40, 40])) [172, 18, 40, 40] = 0 :=
  ⟨by decide, C6_next_undoes_prev.1 [172, 18, 40, 40] (by decide) (by decide)⟩

/-- C7: `NextIP` and `PrevIP` are fixed-width big-endian unsigned +1 / −1
modulo `256 ^ width` on the byte representation (carry and borrow ripple
across all bytes), and they wrap silently at the family boundary: the
all-ones maximum increments to all-zero and the all-zero minimum
decrements to all-ones, at both the 4-byte and the 16-byte widths. -/
theorem C7_stepper_wraparound :
    (∀ ip : IPBytes, bytesWF ip →
      bytesToNat (NextIP ip) = (bytesToNat ip + 1) % 256 ^ ip.length
      ∧ bytesToNat (PrevIP ip) = (bytesToNat ip + (256 ^ ip.length - 1)) % 256 ^ ip.length)
    ∧ NextIP (List.replicate 4 255) = List.replicate 4 0
    ∧ NextIP (List.replicate 16 255) = List.replicate 16 0
    ∧ PrevIP (List.replicate 4 0) = List.replicate 4 255
    ∧ PrevIP (List.replicate 16 0) = List.replicate 16 255 := by
  refine ⟨?_, by decide, by decide, by decide, by decide⟩
  intro ip hwf
  have hrev : ∀ x ∈ ip.reverse, x < 256 := fun x hx => hwf x (List.mem_reverse.mp hx)
  constructor
  · rw [NextIP, bytesToNat_eq_revToNat, List.reverse_reverse, incRev_toNat ip.reverse hrev,
      List.length_reverse, bytesToNat_eq_revToNat]
  · rw [PrevIP, bytesToNat_eq_revToNat, List.reverse_reverse, decRev_toNat ip.reverse hrev,
      List.length_reverse, bytesToNat_eq_revToNat]

/-- C7, witness at a concrete input (a carry across the low byte). -/
theorem C7_witness :
    bytesWF [0, 255]
    ∧ bytesToNat (NextIP [0, 255])
      = (bytesToNat [0, 255] + 1) % 256 ^ ([0, 255] : IPBytes).length
    ∧ bytesToNat (PrevIP [0, 255])
      = (bytesToNat [0, 255] + (256 ^ ([0, 255] : IPBytes).length - 1))
        % 256 ^ ([0, 255] : IPBytes).length :=
  ⟨by decide, (C7_stepper_wraparound.1 [0, 255] (by decide)).1,
    (C7_stepper_wraparound.1 [0, 255] (by decide)).2⟩

/-- C8: `IPsDiffSet A B` returns exactly the elements of `A` that are not
`Cmp`-equal to any element of `B`, in `A`'s original relative order with
only the first occurrence of each value kept: it equals the declarative
reading of the contract, `IPsDiffSetSpec` (filter `A` by non-membership in
`B`, then first-occurrence deduplication in order) on *all* inputs — which
pins the output completely, including the order and which duplicate
survives — and in particular it is a sublist of `A`, disjoint from `B`,
covers `A` outside `B`, and is pairwise `Cmp`-distinct; concretely
`IPsDiffSet([172.18.40.1, 172.18.40.2], [172.18.40.2, 172.18.40.3])
  = [172.18.40.1]`, and on a duplicated input
`IPsDiffSet([a, b, a], [])` keeps the *first* occurrence: `[a, b]`. -/
theorem C8_IPsDiffSet_correct :
    (∀ A B : List IPBytes, IPsDiffSet A B = IPsDiffSetSpec A B)
    ∧ (∀ A B : List IPBytes,
      (IPsDiffSet A B).Sublist A
      ∧ (∀ x ∈ IPsDiffSet A B, memByCmp x B = false)
      ∧ (∀ x ∈ A, memByCmp x B = false → memByCmp x (IPsDiffSet A B) = true)
      ∧ (IPsDiffSet A B).Pairwise (fun a b => Cmp a b ≠ 0))
    ∧ IPsDiffSet [goIPv4 [172, 18, 40, 1], goIPv4 [172, 18, 40, 2]]
        [goIPv4 [172, 18, 40, 2], goIPv4 [172, 18, 40, 3]] = [goIPv4 [172, 18, 40, 1]]
    ∧ IPsDiffSet [goIPv4 [172, 18, 40, 1], goIPv4 [172, 18, 40, 2], goIPv4 [172, 18, 40, 1]] []
        = [goIPv4 [172, 18, 40, 1], goIPv4 [172, 18, 40, 2]] := by
  refine ⟨IPsDiffSet_eq_spec, ?_, by decide, by decide⟩
  intro A B
  refine ⟨diffGo_sublist B A [], fun x hx => diffGo_not_bs B A [] x hx, ?_,
    (diffGo_fresh_pairwise B A []).2⟩
  intro x hxA hxB
  rcases diffGo_covers B A [] x hxA hxB with h | h
  · rw [memByCmp_nil] at h
    cases h
  · exact h

/-- C8, witness at a concrete input. -/
theorem C8_witness :
    IPsDiffSet [goIPv4 [172, 18, 40, 1], goIPv4 [172, 18, 40, 2]]
        [goIPv4 [172, 18, 40, 2], goIPv4 [172, 18, 40, 3]]
      = IPsDiffSetSpec [goIPv4 [172, 18, 40, 1], goIPv4 [172, 18, 40, 2]]
        [goIPv4 [172, 18, 40, 2], goIPv4 [172, 18, 40, 3]]
    ∧ memByCmp (goIPv4 [172, 18, 40, 1])
        (IPsDiffSet [goIPv4 [172, 18, 40, 1], goIPv4 [172, 18, 40, 2]]
          [goIPv4 [172, 18, 40, 2], goIPv4 [172, 18, 40, 3]]) = true :=
  ⟨C8_IPsDiffSet_correct.1 [goIPv4 [172, 18, 40, 1], goIPv4 [172, 18, 40, 2]]
      [goIPv4 [172, 18, 40, 2], goIPv4 [172, 18, 40, 3]],
    (C8_IPsDiffSet_correct.2.1 [goIPv4 [172, 18, 40, 1], goIPv4 [172, 18, 40, 2]]
      [goIPv4 [172, 18, 40, 2], goIPv4 [172, 18, 40, 3]]).2.2.1
      (goIPv4 [172, 18, 40, 1]) (by decide) (by decide)⟩

/-- C9: every text-taking operation validates the family first (an
unrecognized family tag yields `ErrInvalidIPVersion` no matter what the
texts are, with the neutral value), then the formats; with a valid family
the only possible errors are the matching format errors, and whenever any
error is produced the paired value is the neutral default (`none` block or
`false` boolean) — never a partially built block or a `true` fallback. -/
theorem C9_error_policy :
    (∀ v, ¬(v = 4 ∨ v = 6) → ∀ t1 t2 c,
      ParseIP v t1 c = (none, some .invalidIPVersion)
      ∧ ParseCIDR v t1 = (none, some .invalidIPVersion)
      ∧ IsIP v t1 = some .invalidIPVersion
      ∧ IsCIDR v t1 = some .invalidIPVersion
      ∧ ContainsIP v t1 t2 = (false, some .invalidIPVersion)
      ∧ ContainsCIDR v t1 t2 = (false, some .invalidIPVersion)
      ∧ IsCIDROverlap v t1 t2 = (false, some .invalidIPVersion))
    ∧ (∀ v, (v = 4 ∨ v = 6) → ∀ t1 t2,
      (IsIP v t1 = none ∨ IsIP v t1 = some .invalidIPFormat)
      ∧ (IsCIDR v t1 = none ∨ IsCIDR v t1 = some .invalidCIDRFormat)
      ∧ ((ParseIP v t1 true).2 = none ∨ (ParseIP v t1 true).2 = some .invalidCIDRFormat)
      ∧ ((ParseIP v t1 false).2 = none ∨ (ParseIP v t1 false).2 = some .invalidIPFormat)
      ∧ ((ParseCIDR v t1).2 = none ∨ (ParseCIDR v t1).2 = some .invalidCIDRFormat)
      ∧ ((ContainsCIDR v t1 t2).2 = none
          ∨ (ContainsCIDR v t1 t2).2 = some .invalidCIDRFormat)
      ∧ ((IsCIDROverlap v t1 t2).2 = none
          ∨ (IsCIDROverlap v t1 t2).2 = some .invalidCIDRFormat)
      ∧ ((ContainsIP v t1 t2).2 = none ∨ (ContainsIP v t1 t2).2 = some .invalidCIDRFormat
          ∨ (ContainsIP v t1 t2).2 = some .invalidIPFormat))
    ∧ (∀ v t1 t2 c,
      ((ParseIP v t1 c).1 = none ∨ (ParseIP v t1 c).2 = none)
      ∧ ((ParseCIDR v t1).1 = none ∨ (ParseCIDR v t1).2 = none)
      ∧ ((ContainsIP v t1 t2).1 = false ∨ (ContainsIP v t1 t2).2 = none)
      ∧ ((ContainsCIDR v t1 t2).1 = false ∨ (ContainsCIDR v t1 t2).2 = none)
      ∧ ((IsCIDROverlap v t1 t2).1 = false ∨ (IsCIDROverlap v t1 t2).2 = none)) :=
  ⟨fun v hv t1 t2 c =>
    ⟨ParseIP_version_first v t1 c hv, ParseCIDR_version_first v t1 hv,
      IsIP_version_first v t1 hv, IsCIDR_version_first v t1 hv,
      ContainsIP_version_first v t1 t2 hv, ContainsCIDR_version_first v t1 t2 hv,
      IsCIDROverlap_version_first v t1 t2 hv⟩,
   fun v hv t1 t2 =>
    ⟨IsIP_kinds v t1 hv, IsCIDR_kinds v t1 hv, ParseIP_kinds_cidr v t1 hv,
      ParseIP_kinds_bare v t1 hv, ParseCIDR_kinds v t1 hv,
      ContainsCIDR_kinds v t1 t2 hv, IsCIDROverlap_kinds v t1 t2 hv,
      ContainsIP_kinds v t1 t2 hv⟩,
   fun v t1 t2 c =>
    ⟨ParseIP_neutral v t1 c, ParseCIDR_neutral v t1,
      ContainsIP_neutral v t1 t2, ContainsCIDR_neutral v t1 t2,
      IsCIDROverlap_neutral v t1 t2⟩⟩

/-- C9, witness at concrete inputs. -/
theorem C9_witness :
    ParseIP 5 .bad true = (none, some .invalidIPVersion)
    ∧ (IsCIDR 4 .bad = none ∨ IsCIDR 4 .bad = some .invalidCIDRFormat) :=
  ⟨(C9_error_policy.1 5 (by decide) .bad .bad true).1,
   (C9_error_policy.2.1 4 (Or.inl rfl) .bad .bad).2.1⟩

/-- C10: for every valid bare address literal of the declared family,
`ParseIP` with `asCIDR = false` returns a block whose mask is the family's
full width (32 for V4, 128 for V6) and whose base is the parsed host
address itself, unmasked (for V4 the base's canonical 4-byte form is
exactly the literal's four octets). -/
theorem C10_ParseIP_bare :
    (∀ b, (IPText.v4 b).wf = true →
      ParseIP 4 (.v4 b) false = (some ⟨goIPv4 b, 32, 32⟩, none) ∧ normIP (goIPv4 b) = b)
    ∧ (∀ b, (IPText.v6 b).wf = true →
      ParseIP 6 (.v6 b) false = (some ⟨b, 128, 128⟩, none)) := by
  constructor
  · intro b h
    exact ⟨ParseIP_bare_v4_eval b h, normIP_goIPv4 b (wf_v4 b h).1⟩
  · intro b h
    exact ParseIP_bare_v6_eval b h

/-- C10, witness at a concrete input. -/
theorem C10_witness :
    ParseIP 4 (.v4 [172, 18, 40, 40]) false
      = (some ⟨goIPv4 [172, 18, 40, 40], 32, 32⟩, none)
    ∧ normIP (goIPv4 [172, 18, 40, 40]) = [172, 18, 40, 40] :=
  C10_ParseIP_bare.1 [172, 18, 40, 40] (by decide)

end Spiderpool
